import Mathlib

/-!
Verification of the core of the `bookmark-organiser` repository
(`src/bookmark_organiser/{organiser,models,validator,html_writer,config}.py`):
a shallow embedding of the data model, the batched merge pipeline, the
retry/fallback controller, the response-item validation, the depth-bounded
tree builder, the post-hoc validator, and the JSON snapshot round trip,
together with theorems settling the frozen claims about them.

Modelling conventions:
* Python `str` is modelled as `String`; the Python primitives
  `str.strip()`, `str.split("/")`, `str.lower()`, `"/".join(...)` and the
  `in` substring test are translated into structurally recursive Lean
  functions over the underlying character list (`pyStrip`, `pySplitSlash`,
  `pyLower`, `joinSlash`, `strContains`) so that all definitions evaluate
  inside the kernel.  `Char.isWhitespace` covers the ASCII whitespace the
  test data uses; Python additionally strips other Unicode whitespace.
* In-place mutation of `BookmarkRecord` objects becomes functional record
  update; the identity of a record in a list is its position.
* `collections.Counter` over URLs is modelled as `Multiset String`;
  `Counter` subtraction (which keeps only positive counts) is exactly
  truncated `Multiset` subtraction.
* Exceptions become explicit result types (`Except`, `RetryOutcome`,
  `ValidationError`).
-/

/-! ## Python string primitives -/

/-- Python `str.strip()` on the character list: drop leading and trailing
whitespace. -/
def trimChars (l : List Char) : List Char :=
  ((l.dropWhile Char.isWhitespace).reverse.dropWhile Char.isWhitespace).reverse

/-- Python `str.strip()`. -/
def pyStrip (s : String) : String :=
  String.mk (trimChars s.data)

/-- Split a character list on a separator character, Python
`str.split(sep)` semantics: `""` splits to `[""]`, separators are never
merged. -/
def splitCharsOn (sep : Char) : List Char → List (List Char)
  | [] => [[]]
  | c :: cs =>
    if c = sep then [] :: splitCharsOn sep cs
    else
      match splitCharsOn sep cs with
      | [] => [[c]]
      | h :: t => (c :: h) :: t

/-- Python `s.split("/")`. -/
def pySplitSlash (s : String) : List String :=
  (splitCharsOn '/' s.data).map String.mk

/-- Python `str.lower()` (ASCII case folding suffices for the error
messages involved). -/
def pyLower (s : String) : String :=
  String.mk (s.data.map Char.toLower)

/-- Contiguous-sublist test on character lists, for Python's substring
`in` operator. -/
def containsSub : List Char → List Char → Bool
  | [], needle => needle.isEmpty
  | h :: t, needle => needle.isPrefixOf (h :: t) || containsSub t needle

/-- Python `needle in hay` on strings. -/
def strContains (hay needle : String) : Bool :=
  containsSub hay.data needle.data

/-- Python `"/".join(parts)`. -/
def joinSlash : List String → String
  | [] => ""
  | [x] => x
  | x :: y :: xs => x ++ "/" ++ joinSlash (y :: xs)

/-- The `"/"`-segments of a location string after per-segment trimming
and dropping of empties: `[p.strip() for p in location.split("/") if
p.strip()]` (the list comprehension shared by `_validate_item` and
`build_tree`). -/
def segments (s : String) : List String :=
  ((pySplitSlash s).map pyStrip).filter (fun p => p ≠ "")

/-! ## Data model (`models.py`, `config.py`) -/

/-- Model of `config.MAX_FOLDER_DEPTH`. -/
def MAX_FOLDER_DEPTH : Nat := 4

/-- Model of `config.DEFAULT_BATCH_SIZE`. -/
def DEFAULT_BATCH_SIZE : Nat := 25

/-- Model of `models.BookmarkMetadata`. -/
structure BookmarkMetadata where
  title : String := ""
  description : String := ""
  tags : List String := []
deriving DecidableEq, Repr

/-- Model of `models.BookmarkRecord`. -/
structure BookmarkRecord where
  title_before : String
  url : String
  location_before : String
  metadata : BookmarkMetadata := {}
  title_after : String := ""
  location_after : String := ""
deriving DecidableEq, Repr

/-- Model of `models.LLMReorgEntryModel`: a validated LLM response item. -/
structure LLMReorgEntry where
  index : Int
  title_after : String := ""
  location_after : String
  tags : List String := []
deriving DecidableEq, Repr

/-- Model of `models.BookmarkTreeNode`. -/
structure BookmarkTreeNode where
  name : String
  children : List BookmarkTreeNode
  bookmarks : List BookmarkRecord

/-! ## Tree builder (`html_writer.build_tree`) -/

/-- The folder path at which `build_tree` files a record: effective
location (`record.location_after or record.location_before`), split on
`"/"` with trimming and empty-segment dropping, `["Unsorted"]` when no
segment remains, truncated to the first `d` segments when longer.
Parameterised by the configured depth `d` (`MAX_FOLDER_DEPTH` in the
source). -/
def effectiveParts (d : Nat) (r : BookmarkRecord) : List String :=
  let location := if r.location_after ≠ "" then r.location_after else r.location_before
  let parts := segments location
  let parts := if parts = [] then ["Unsorted"] else parts
  if parts.length > d then parts.take d else parts

/-- Functional update of the first child with the given name
(`BookmarkTreeNode.get_or_create_child` finds the first name match). -/
def updateNamed (p : String) (f : BookmarkTreeNode → BookmarkTreeNode) :
    List BookmarkTreeNode → List BookmarkTreeNode
  | [] => []
  | c :: cs => if c.name = p then f c :: cs else c :: updateNamed p f cs

/-- The walk/create loop of `build_tree`: descend along `parts` with
get-or-create semantics and append the record to the leaf's bookmark
list. -/
def insertPath (r : BookmarkRecord) : List String → BookmarkTreeNode → BookmarkTreeNode
  | [], node => { node with bookmarks := node.bookmarks ++ [r] }
  | p :: rest, node =>
    if node.children.any (fun c => c.name = p) then
      { node with children := updateNamed p (insertPath r rest) node.children }
    else
      { node with children := node.children ++ [insertPath r rest ⟨p, [], []⟩] }

/-- Model of `html_writer.build_tree`, parameterised by the configured maximum
folder depth. -/
def build_tree (d : Nat) (records : List BookmarkRecord) : BookmarkTreeNode :=
  records.foldl (fun root r => insertPath r (effectiveParts d r) root)
    ⟨"Bookmarks Bar", [], []⟩

/-- Model of `build_tree` at the source's configured depth. -/
def build_tree_default (records : List BookmarkRecord) : BookmarkTreeNode :=
  build_tree MAX_FOLDER_DEPTH records

/-- Predicate: `withinDepth d t` holds when no folder node of `t` sits more than `d`
levels below `t`; every bookmark is then held by a node reachable by at
most `d` folder segments. -/
def withinDepth : Nat → BookmarkTreeNode → Bool
  | 0, node => node.children.isEmpty
  | d + 1, node => node.children.all (withinDepth d)

/-! ## Response-item validation (`organiser._validate_item`) -/

/-- One raw JSON mapping from the model's response, restricted to the
keys `_validate_item` and `LLMReorgEntryModel` inspect; `none` models an
absent key, and present values are modelled at the Python type the
claims exercise (a present `index` is an integer, a present
`location_after` a string, present `tags` a list of strings — a
present value of the wrong type would fail pydantic validation and drop
the item, a case none of the claims depends on). -/
structure RawItem where
  index : Option Int := none
  title_after : Option String := none
  location_after : Option String := none
  tags : Option (List String) := none
deriving DecidableEq, Repr

/-- Model of `BookmarkOrganiser._validate_item`, parameterised by the configured
maximum folder depth: reject items missing the `index` or
`location_after` key; when the stripped location is non-empty, replace it
by its trimmed non-empty `"/"`-segments truncated to the first `d` and
re-joined (otherwise leave it untouched); then build the
`LLMReorgEntryModel` (pydantic defaults `title_after := ""`,
`tags := []`, and strips each tag). -/
def validate_item (d : Nat) (obj : RawItem) : Option LLMReorgEntry :=
  match obj.index, obj.location_after with
  | some idx, some rawLoc =>
    let location := pyStrip rawLoc
    let newLoc :=
      if location ≠ "" then
        let parts := segments location
        let parts := if parts.length > d then parts.take d else parts
        joinSlash parts
      else rawLoc
    some { index := idx
           title_after := obj.title_after.getD ""
           location_after := newLoc
           tags := (obj.tags.getD []).map pyStrip }
  | _, _ => none

/-- Model of `_validate_item` at the source's configured depth. -/
def validate_item_default (obj : RawItem) : Option LLMReorgEntry :=
  validate_item MAX_FOLDER_DEPTH obj

/-! ## Merge loop of `BookmarkOrganiser.reorganise` -/

/-- Model of the lookup `index_map.get(idx)` where `index_map` is the
dict comprehension over the parsed entries; a Python dict comprehension
keeps the **last** item with a given key. -/
def index_lookup (parsed : List LLMReorgEntry) (idx : Int) : Option LLMReorgEntry :=
  parsed.reverse.find? (fun e => e.index = idx)

/-- The body of the merge loop for one record with a validated entry:
`title_after`/`location_after` with the `or` fallbacks, and the tag list
rebuilt from the entry's tags (each stripped, empties dropped). -/
def merge_entry (r : BookmarkRecord) (e : LLMReorgEntry) : BookmarkRecord :=
  { r with
    title_after := if e.title_after ≠ "" then e.title_after else r.title_before
    location_after := if e.location_after ≠ "" then e.location_after else r.location_before
    metadata := { r.metadata with
                  tags := (e.tags.map pyStrip).filter (fun t => t ≠ "") } }

/-- Apply the merge for one record index: a record with no validated
entry of its index is left unchanged. -/
def apply_at (parsed : List LLMReorgEntry) (idx : Int) (r : BookmarkRecord) : BookmarkRecord :=
  match index_lookup parsed idx with
  | none => r
  | some e => merge_entry r e

/-- The `for idx, record in enumerate(chunk, start=start)` merge loop of
`reorganise` for one batch. -/
def merge_chunk (parsed : List LLMReorgEntry) (start : Nat) (chunk : List BookmarkRecord) :
    List BookmarkRecord :=
  (chunk.enumFrom start).map (fun p => apply_at parsed (Int.ofNat p.1) p.2)

/-- The batch loop of `BookmarkOrganiser.reorganise`.  The LLM round trip
of a batch is abstracted by `entriesFor : Nat → List LLMReorgEntry`, the
validated entries `_invoke_with_retry` returns for the batch starting at
a given index (the payload, structure summary and prompt only influence
what the adapter answers; a batch whose retries are exhausted raises and
produces no return value, so the returned-list claims quantify over the
runs in which every batch succeeded).  Only called with `b ≥ 1`
(`__init__` clamps `batch_size` with `max(1, batch_size)`). -/
def reorganise_go (entriesFor : Nat → List LLMReorgEntry) (b : Nat) :
    Nat → List BookmarkRecord → List BookmarkRecord
  | _, [] => []
  | start, r :: rest =>
    merge_chunk (entriesFor start) start ((r :: rest).take b) ++
      reorganise_go entriesFor b (start + b) (rest.drop (b - 1))
termination_by _ rem => rem.length
decreasing_by
  simp only [List.length_drop, List.length_cons]
  omega

/-- Model of `BookmarkOrganiser.reorganise` (merge pipeline over all batches). -/
def reorganise (entriesFor : Nat → List LLMReorgEntry) (batch_size : Nat)
    (records : List BookmarkRecord) : List BookmarkRecord :=
  reorganise_go entriesFor (max 1 batch_size) 0 records

/-! ## Retry/fallback controller (`organiser._invoke_with_retry`,
`organiser._process_exception`) -/

/-- The mutable organiser state the controller reads and writes:
`self._model`, `self._fallback_model`, `self._supports_temperature`. -/
structure OrganiserState where
  model : String
  fallback_model : String
  supports_temperature : Bool
deriving DecidableEq, Repr

/-- Trace of one attempt's outcome, recording the sleep the code performs
(`time.sleep(0.1)` for the temperature correction,
`time.sleep(backoff_seconds * attempt)` for the fallback switch and the
generic backoff; a zero-valid-items attempt does not sleep). -/
inductive RetryEvent where
  | succeeded (attempt : Nat)
  | noValidItems (attempt : Nat)
  | tempCorrection (attempt : Nat) (sleep : ℚ)
  | modelFallback (attempt : Nat) (sleep : ℚ)
  | genericBackoff (attempt : Nat) (sleep : ℚ)
deriving DecidableEq, Repr

/-- What escapes `_invoke_with_retry`: the validated entries on success,
or the exception raised after the attempt loop (`raise last_error` — a
`ValueError` — when some attempt validated zero items, else the bare
`LLMInvocationError`). -/
inductive RetryOutcome where
  | success (items : List LLMReorgEntry)
  | raisedValueError (msg : String)
  | raisedLLMInvocationError
deriving DecidableEq, Repr

/-- Model of `BookmarkOrganiser._process_exception`: lower-cased message matching,
returning the updated state, the immediate-continue flag and the event
(with the sleep performed). -/
def process_exception (st : OrganiserState) (excMsg : String) (attempt : Nat)
    (backoff : ℚ) : OrganiserState × Bool × RetryEvent :=
  let message := pyLower excMsg
  if st.supports_temperature ∧ strContains message "temperature" = true ∧
      strContains message "unsupported" = true then
    ({ st with supports_temperature := false }, true,
      RetryEvent.tempCorrection attempt (1 / 10))
  else if attempt = 1 ∧ st.fallback_model ≠ st.model ∧
      strContains message "model" = true ∧
      (strContains message "not found" = true ∨
        strContains message "does not exist" = true) then
    ({ st with model := st.fallback_model }, true,
      RetryEvent.modelFallback attempt (backoff * attempt))
  else
    (st, false, RetryEvent.genericBackoff attempt (backoff * attempt))

/-- One call of the completion adapter: given the attempt's client
behaviour (a function of the active model and the use-temperature flag,
failing with the exception's message or returning the parsed raw JSON
items — `_extract_items` failures are exceptions too), run
`_single_attempt`: invoke, then validate each raw item, keeping the
successes. -/
def single_attempt (call : String → Bool → Except String (List RawItem))
    (st : OrganiserState) : Except String (List LLMReorgEntry) :=
  (call st.model st.supports_temperature).map
    (fun raw => raw.filterMap validate_item_default)

/-- The `for attempt in range(1, max_attempts + 1)` loop of
`_invoke_with_retry`, over the list of remaining attempt numbers.
`lastErr` models the local `last_error`, which the source assigns only
in the zero-valid-items case — the `except` branch never updates it. -/
def invoke_loop (client : Nat → String → Bool → Except String (List RawItem))
    (backoff : ℚ) :
    List Nat → OrganiserState → Option String → List RetryEvent →
      RetryOutcome × OrganiserState × List RetryEvent
  | [], st, lastErr, trace =>
    (match lastErr with
     | some m => RetryOutcome.raisedValueError m
     | none => RetryOutcome.raisedLLMInvocationError, st, trace)
  | attempt :: rest, st, lastErr, trace =>
    match single_attempt (client attempt) st with
    | Except.ok validated =>
      if validated.isEmpty then
        invoke_loop client backoff rest st (some "No valid items after validation")
          (trace ++ [RetryEvent.noValidItems attempt])
      else
        (RetryOutcome.success validated, st, trace ++ [RetryEvent.succeeded attempt])
    | Except.error msg =>
      let step := process_exception st msg attempt backoff
      invoke_loop client backoff rest step.1 lastErr (trace ++ [step.2.2])

/-- Model of `BookmarkOrganiser._invoke_with_retry` (defaults `max_attempts = 3`,
`backoff_seconds = 2.0`), with the client behaviour indexed by attempt
number. -/
def invoke_with_retry (client : Nat → String → Bool → Except String (List RawItem))
    (st : OrganiserState) (max_attempts : Nat) (backoff : ℚ) :
    RetryOutcome × OrganiserState × List RetryEvent :=
  invoke_loop client backoff (List.range' 1 max_attempts) st none []

/-! ## Post-hoc validator (`validator.py`) -/

/-- The `ValueError`s the validator raises, by check.  `urlMismatch`
carries the payload `{"missing": ..., "extra": ...}` as the two count
multisets; `emptyLocation` carries the number of offending records the
message reports. -/
inductive ValidationError where
  | countMismatch (original reorganised : Nat)
  | urlMismatch (missing extra : Multiset String)
  | emptyLocation (count : Nat)
deriving DecidableEq

/-- The `collections.Counter(r.url for r in rs)` of a record list. -/
def url_multiset (rs : List BookmarkRecord) : Multiset String :=
  (rs.map (fun r => r.url) : List String)

/-- Model of `validator._assert_counts`. -/
def assert_counts (original reorganised : List BookmarkRecord) :
    Except ValidationError Unit :=
  if original.length ≠ reorganised.length then
    Except.error (ValidationError.countMismatch original.length reorganised.length)
  else Except.ok ()

/-- Model of `validator._assert_url_multiset`: `Counter` equality is multiset
equality; on failure the payload holds `original_urls - new_urls` and
`new_urls - original_urls` (truncated subtraction, positive counts
only — exactly `Counter` subtraction). -/
def assert_url_multiset (original reorganised : List BookmarkRecord) :
    Except ValidationError Unit :=
  let original_urls := url_multiset original
  let new_urls := url_multiset reorganised
  if original_urls ≠ new_urls then
    Except.error
      (ValidationError.urlMismatch (original_urls - new_urls) (new_urls - original_urls))
  else Except.ok ()

/-- Model of `validator._assert_locations`. -/
def assert_locations (reorganised : List BookmarkRecord) : Except ValidationError Unit :=
  let empty_locations := reorganised.filter
    (fun r => pyStrip r.location_after = "" ∧ pyStrip r.location_before = "")
  if empty_locations.length ≠ 0 then
    Except.error (ValidationError.emptyLocation empty_locations.length)
  else Except.ok ()

/-- Model of `validator.validate_reorganisation` on the original records and the
re-parsed output records (the HTML re-parse that produces the second
list, and the optional JSON-snapshot cross-check, are the out-of-scope
collaborators; the three core checks run in source order and
short-circuit on the first failure). -/
def validate_reorganisation (original reorganised : List BookmarkRecord) :
    Except ValidationError Unit :=
  match assert_counts original reorganised with
  | Except.error e => Except.error e
  | Except.ok _ =>
    match assert_url_multiset original reorganised with
    | Except.error e => Except.error e
    | Except.ok _ => assert_locations reorganised

/-! ## JSON snapshot round trip (`organiser.write_json` / `load_json`,
`models.BookmarkRecord.to_model` / `from_model`) -/

/-- Model of `models.BookmarkMetadataModel` (pydantic). -/
structure BookmarkMetadataModel where
  title : String := ""
  description : String := ""
  tags : List String := []
deriving DecidableEq, Repr

/-- Model of `models.BookmarkEntryModel` (pydantic). -/
structure BookmarkEntryModel where
  title_before : String
  title_after : String := ""
  url : String
  location_before : String
  location_after : String := ""
  link_metadata : BookmarkMetadataModel
deriving DecidableEq, Repr

/-- Model of `BookmarkMetadataModel._normalise_tags`, the `mode="before"` field
validator pydantic runs on every construction/validation of the model:
strip each tag (`[] if value is falsy` coincides with mapping over
`[]`). -/
def normalise_tags (tags : List String) : List String :=
  tags.map pyStrip

/-- Constructing a `BookmarkMetadataModel` runs the tags validator. -/
def mkMetadataModel (title description : String) (tags : List String) :
    BookmarkMetadataModel :=
  { title := title, description := description, tags := normalise_tags tags }

/-- Model of `BookmarkRecord.to_model`. -/
def BookmarkRecord.to_model (r : BookmarkRecord) : BookmarkEntryModel :=
  { title_before := r.title_before
    title_after := r.title_after
    url := r.url
    location_before := r.location_before
    location_after := r.location_after
    link_metadata := mkMetadataModel r.metadata.title r.metadata.description r.metadata.tags }

/-- Loading runs `BookmarkEntryModel.model_validate`, which re-runs the nested metadata
field validator on load. -/
def validateEntryModel (m : BookmarkEntryModel) : BookmarkEntryModel :=
  { m with link_metadata := (mkMetadataModel m.link_metadata.title
      m.link_metadata.description m.link_metadata.tags) }

/-- Model of `BookmarkRecord.from_model`. -/
def BookmarkRecord.from_model (m : BookmarkEntryModel) : BookmarkRecord :=
  { title_before := m.title_before
    url := m.url
    location_before := m.location_before
    metadata := { title := m.link_metadata.title
                  description := m.link_metadata.description
                  tags := m.link_metadata.tags }
    title_after := m.title_after
    location_after := m.location_after }

/-- Model of `BookmarkOrganiser.write_json` up to the textual layer: the models
serialised into the file.  `json.dumps`/`json.loads` of a flat list of
string fields is faithful, so the text layer is the identity on this
representation. -/
def write_json (records : List BookmarkRecord) : List BookmarkEntryModel :=
  records.map BookmarkRecord.to_model

/-- Model of `BookmarkOrganiser.load_json` from the parsed payload:
`model_validate` each item, then convert to records. -/
def load_json (payload : List BookmarkEntryModel) : List BookmarkRecord :=
  (payload.map validateEntryModel).map BookmarkRecord.from_model

/-- Write a record list to a snapshot and load it back. -/
def json_roundtrip (records : List BookmarkRecord) : List BookmarkRecord :=
  load_json (write_json records)

/-! ## Lemmas: depth bound of the tree builder -/

theorem withinDepth_leaf (d : Nat) (n : String) (bs : List BookmarkRecord) :
    withinDepth d ⟨n, [], bs⟩ = true := by
  cases d <;> simp [withinDepth]

theorem withinDepth_bookmarks_irrelevant (d : Nat) (n n' : String)
    (cs : List BookmarkTreeNode) (bs bs' : List BookmarkRecord) :
    withinDepth d ⟨n, cs, bs⟩ = withinDepth d ⟨n', cs, bs'⟩ := by
  cases d <;> rfl

theorem updateNamed_all (P : BookmarkTreeNode → Bool) (p : String)
    (f : BookmarkTreeNode → BookmarkTreeNode)
    (hf : ∀ c, P c = true → P (f c) = true) :
    ∀ cs : List BookmarkTreeNode, cs.all P = true → (updateNamed p f cs).all P = true := by
  intro cs
  induction cs with
  | nil => intro _; simp [updateNamed]
  | cons c cs ih =>
    intro h
    simp only [List.all_cons, Bool.and_eq_true] at h
    simp only [updateNamed]
    by_cases hc : c.name = p
    · simp [hc, List.all_cons, hf c h.1, h.2]
    · simp [hc, List.all_cons, h.1, ih h.2]

theorem withinDepth_insertPath (r : BookmarkRecord) :
    ∀ (parts : List String) (d : Nat) (t : BookmarkTreeNode),
      parts.length ≤ d → withinDepth d t = true →
      withinDepth d (insertPath r parts t) = true := by
  intro parts
  induction parts with
  | nil =>
    intro d t _ ht
    obtain ⟨n, cs, bs⟩ := t
    simpa [insertPath, withinDepth_bookmarks_irrelevant d n n cs (bs ++ [r]) bs] using ht
  | cons p rest ih =>
    intro d t hlen ht
    obtain ⟨d', rfl⟩ : ∃ d', d = d' + 1 := by
      cases d with
      | zero => simp at hlen
      | succ k => exact ⟨k, rfl⟩
    have hrest : rest.length ≤ d' := by
      simp only [List.length_cons] at hlen; omega
    obtain ⟨n, cs, bs⟩ := t
    have hcs : cs.all (withinDepth d') = true := ht
    by_cases hex : (cs.any (fun c => c.name = p)) = true
    · have h1 : (updateNamed p (insertPath r rest) cs).all (withinDepth d') = true :=
        updateNamed_all (withinDepth d') p (insertPath r rest)
          (fun c hc => ih d' c hrest hc) cs hcs
      simpa [insertPath, hex, withinDepth] using h1
    · have hnew : withinDepth d' (insertPath r rest ⟨p, [], []⟩) = true :=
        ih d' _ hrest (withinDepth_leaf d' p [])
      have h1 : (cs ++ [insertPath r rest ⟨p, [], []⟩]).all (withinDepth d') = true := by
        simp only [List.all_append, Bool.and_eq_true, List.all_cons, List.all_nil]
        exact ⟨hcs, hnew, trivial⟩
      simpa [insertPath, hex, withinDepth] using h1

theorem truncate_length_le (d : Nat) (l : List String) :
    (if l.length > d then l.take d else l).length ≤ d := by
  split
  · rw [List.length_take]; exact min_le_left d _
  · omega

theorem effectiveParts_length_le (d : Nat) (r : BookmarkRecord) :
    (effectiveParts d r).length ≤ d :=
  truncate_length_le d _

theorem withinDepth_build_tree (d : Nat) (records : List BookmarkRecord) :
    withinDepth d (build_tree d records) = true := by
  suffices h : ∀ (rs : List BookmarkRecord) (t : BookmarkTreeNode),
      withinDepth d t = true →
      withinDepth d (rs.foldl (fun root r => insertPath r (effectiveParts d r) root) t) = true by
    exact h records _ (withinDepth_leaf d "Bookmarks Bar" [])
  intro rs
  induction rs with
  | nil => intro t ht; simpa using ht
  | cons r rs ih =>
    intro t ht
    exact ih _ (withinDepth_insertPath r _ d t (effectiveParts_length_le d r) ht)

/-- The record of §8's depth scenario: `location_after =
"L1/L2/L3/L4/L5/L6"`. -/
def deepRecord : BookmarkRecord :=
  { title_before := "Deep Item", url := "https://example.com/deep",
    location_before := "", location_after := "L1/L2/L3/L4/L5/L6" }

/-- C2: For every record and every configured `MAX_FOLDER_DEPTH = D`, the
path from the root of the tree produced by `build_tree` to any node —
in particular the node holding that record — has at most `D` folder
segments, the folder path assigned to a record always has at most `D`
segments, and excess segments are truncated, not redistributed: the
location `"L1/L2/L3/L4/L5/L6"` with `D = 4` yields exactly the path
`L1/L2/L3/L4`. -/
theorem build_tree_depth_bound :
    (∀ (D : Nat) (records : List BookmarkRecord), withinDepth D (build_tree D records) = true)
    ∧ (∀ (D : Nat) (r : BookmarkRecord), (effectiveParts D r).length ≤ D)
    ∧ effectiveParts MAX_FOLDER_DEPTH deepRecord = ["L1", "L2", "L3", "L4"]
    ∧ build_tree_default [deepRecord] =
        ⟨"Bookmarks Bar",
          [⟨"L1", [⟨"L2", [⟨"L3", [⟨"L4", [], [deepRecord]⟩], []⟩], []⟩], []⟩], []⟩ :=
  ⟨withinDepth_build_tree, effectiveParts_length_le, rfl, rfl⟩

/-! ## Lemmas: response-item validation -/

theorem truncate_eq_take {α : Type} (d : Nat) (l : List α) :
    (if l.length > d then l.take d else l) = l.take d := by
  split
  · rfl
  · exact (List.take_of_length_le (by omega)).symm

/-- C7 (amended): an item carrying both required keys is always
validated, never dropped; when its stripped `location_after` is
non-empty the entry's location is the first `min(k, d)` trimmed
non-empty segments re-joined (at most `d` of them), and when it is empty
or whitespace-only the item is still validated with `location_after`
left unchanged. -/
theorem validate_item_location (d : Nat) (idx : Int) (ta : Option String)
    (rawLoc : String) (tg : Option (List String)) :
    (validate_item d
        { index := some idx, title_after := ta, location_after := some rawLoc,
          tags := tg }).isSome = true
    ∧ ∀ e, validate_item d
          { index := some idx, title_after := ta, location_after := some rawLoc,
            tags := tg } = some e →
        (pyStrip rawLoc = "" → e.location_after = rawLoc)
        ∧ (pyStrip rawLoc ≠ "" →
            e.location_after = joinSlash ((segments (pyStrip rawLoc)).take d)
            ∧ ((segments (pyStrip rawLoc)).take d).length ≤ d) := by
  constructor
  · simp [validate_item]
  · intro e he
    by_cases hs : pyStrip rawLoc = ""
    · refine ⟨fun _ => ?_, fun hne => absurd hs hne⟩
      simp only [validate_item, hs, ne_eq, not_true_eq_false, if_false,
        Option.some.injEq] at he
      rw [← he]
    · refine ⟨fun h0 => absurd h0 hs, fun _ => ?_⟩
      simp only [validate_item, hs, ne_eq, not_false_eq_true, if_true,
        truncate_eq_take, Option.some.injEq] at he
      refine ⟨?_, ?_⟩
      · rw [← he]
      · rw [List.length_take]
        exact min_le_left _ _

/-- C7 counterexample: a response item whose `location_after` is empty
(or whitespace-only) is **validated**, not dropped, and the validated
entry's `location_after` is empty (respectively still whitespace). -/
theorem validate_item_empty_location_counterexample :
    validate_item_default { index := some 0, location_after := some "" } =
        some { index := 0, title_after := "", location_after := "", tags := [] }
    ∧ validate_item_default { index := some 0, location_after := some "  " } =
        some { index := 0, title_after := "", location_after := "  ", tags := [] } :=
  ⟨rfl, rfl⟩

/-- Witness for `validate_item_location` at a concrete item. -/
theorem validate_item_location_witness :
    pyStrip " A / B " ≠ ""
    ∧ ({ index := 7, title_after := "T", location_after := "A/B", tags := ["x"] }
          : LLMReorgEntry).location_after
        = joinSlash ((segments (pyStrip " A / B ")).take 4) := by
  refine ⟨by decide, ?_⟩
  exact (((validate_item_location 4 7 (some "T") " A / B " (some [" x "])).2
      { index := 7, title_after := "T", location_after := "A/B", tags := ["x"] }
      rfl).2 (by decide)).1

/-! ## Lemmas: post-hoc validator -/

/-- C8: the location check fails iff some output record has **both** an
empty (or whitespace-only) `location_after` and an empty (or
whitespace-only) `location_before`; a record with empty `location_after`
but non-empty `location_before` does not trigger it. -/
theorem assert_locations_spec :
    (∀ rs : List BookmarkRecord,
        (∃ err, assert_locations rs = Except.error err) ↔
          ∃ r ∈ rs, pyStrip r.location_after = "" ∧ pyStrip r.location_before = "")
    ∧ assert_locations
        [{ title_before := "B", url := "u", location_before := "Root/A",
           location_after := "" }] = Except.ok ()
    ∧ (∃ err, assert_locations
        [{ title_before := "B", url := "u", location_before := " ",
           location_after := "" }] = Except.error err) := by
  refine ⟨?_, rfl, ⟨ValidationError.emptyLocation 1, rfl⟩⟩
  intro rs
  constructor
  · rintro ⟨err, herr⟩
    by_contra hno
    push_neg at hno
    have hnil : rs.filter
        (fun r => pyStrip r.location_after = "" ∧ pyStrip r.location_before = "") = [] := by
      rw [List.filter_eq_nil_iff]
      intro r hr
      simp only [decide_eq_true_eq, not_and]
      intro h1
      exact hno r hr h1
    simp only [assert_locations, hnil] at herr
    simp at herr
  · rintro ⟨r, hr, h1, h2⟩
    have hne : rs.filter
        (fun r => pyStrip r.location_after = "" ∧ pyStrip r.location_before = "") ≠ [] := by
      intro hnil
      have := List.filter_eq_nil_iff.mp hnil r hr
      simp [h1, h2] at this
    have hlen : (rs.filter
        (fun r => pyStrip r.location_after = "" ∧ pyStrip r.location_before = "")).length ≠ 0 := by
      simpa [List.length_eq_zero] using hne
    refine ⟨ValidationError.emptyLocation ((rs.filter
        (fun r => pyStrip r.location_after = "" ∧ pyStrip r.location_before = "")).length), ?_⟩
    simp only [assert_locations]
    rw [if_pos hlen]

/-- The two record lists of C4's set-versus-multiset scenario: URLs
`[a, a, b]` against `[a, b, b]` — equal as sets, different duplicate
counts. -/
def dupRecordsA : List BookmarkRecord :=
  [{ title_before := "1", url := "a", location_before := "" },
   { title_before := "2", url := "a", location_before := "" },
   { title_before := "3", url := "b", location_before := "" }]

def dupRecordsB : List BookmarkRecord :=
  [{ title_before := "1", url := "a", location_before := "" },
   { title_before := "2", url := "b", location_before := "" },
   { title_before := "3", url := "b", location_before := "" }]

/-- C4: the URL check fails iff the URL **multisets** differ, on failure
the payload enumerates the missing counts (`original - new`) and the
extra counts (`new - original`), and two sequences with equal URL sets
but different duplicate counts do fail. -/
theorem assert_url_multiset_spec :
    (∀ original reorganised : List BookmarkRecord,
        ((∃ m e, assert_url_multiset original reorganised =
            Except.error (ValidationError.urlMismatch m e)) ↔
          url_multiset original ≠ url_multiset reorganised)
        ∧ (url_multiset original ≠ url_multiset reorganised →
            assert_url_multiset original reorganised =
              Except.error (ValidationError.urlMismatch
                (url_multiset original - url_multiset reorganised)
                (url_multiset reorganised - url_multiset original))))
    ∧ ((dupRecordsA.map (fun r => r.url)).toFinset
          = (dupRecordsB.map (fun r => r.url)).toFinset
        ∧ url_multiset dupRecordsA ≠ url_multiset dupRecordsB
        ∧ assert_url_multiset dupRecordsA dupRecordsB =
            Except.error (ValidationError.urlMismatch {"a"} {"b"})) := by
  constructor
  · intro original reorganised
    constructor
    · constructor
      · rintro ⟨m, e, hme⟩
        intro heq
        simp only [assert_url_multiset, heq, ne_eq, not_true_eq_false, if_false] at hme
        exact Except.noConfusion hme
      · intro hne
        exact ⟨_, _, by simp only [assert_url_multiset]; rw [if_pos hne]⟩
    · intro hne
      simp only [assert_url_multiset]
      rw [if_pos hne]
  · refine ⟨by decide, by decide, rfl⟩

/-- Witness for `assert_url_multiset_spec` at a concrete pair of lists. -/
theorem assert_url_multiset_spec_witness :
    assert_url_multiset dupRecordsA dupRecordsB =
      Except.error (ValidationError.urlMismatch
        (url_multiset dupRecordsA - url_multiset dupRecordsB)
        (url_multiset dupRecordsB - url_multiset dupRecordsA)) :=
  ((assert_url_multiset_spec.1 dupRecordsA dupRecordsB).2 (by decide))

/-! ## Lemmas: length preservation of the merge pipeline -/

theorem merge_chunk_length (parsed : List LLMReorgEntry) (start : Nat)
    (chunk : List BookmarkRecord) :
    (merge_chunk parsed start chunk).length = chunk.length := by
  simp [merge_chunk, List.enumFrom_length]

theorem reorganise_go_length (f : Nat → List LLMReorgEntry) {b : Nat} (hb : 1 ≤ b) :
    ∀ (rem : List BookmarkRecord) (start : Nat),
      (reorganise_go f b start rem).length = rem.length := by
  have main : ∀ (n : Nat) (rem : List BookmarkRecord) (start : Nat), rem.length ≤ n →
      (reorganise_go f b start rem).length = rem.length := by
    intro n
    induction n with
    | zero =>
      intro rem start h
      have : rem = [] := List.length_eq_zero.mp (Nat.le_zero.mp h)
      subst this
      simp [reorganise_go]
    | succ n ih =>
      intro rem start h
      cases rem with
      | nil => simp [reorganise_go]
      | cons r rest =>
        have hrec := ih (rest.drop (b - 1)) (start + b)
          (by simp only [List.length_drop]; simp only [List.length_cons] at h; omega)
        simp only [reorganise_go, List.length_append, merge_chunk_length,
          List.length_take, hrec, List.length_drop, List.length_cons]
        omega
  exact fun rem start => main rem.length rem start le_rfl

theorem assert_url_multiset_not_count (o r : List BookmarkRecord) (a b : Nat) :
    assert_url_multiset o r ≠ Except.error (ValidationError.countMismatch a b) := by
  simp only [assert_url_multiset]
  split
  · intro h
    simp at h
  · intro h
    exact Except.noConfusion h

theorem assert_locations_not_count (rs : List BookmarkRecord) (a b : Nat) :
    assert_locations rs ≠ Except.error (ValidationError.countMismatch a b) := by
  simp only [assert_locations]
  split
  · intro h
    simp at h
  · intro h
    exact Except.noConfusion h

/-- C3: `reorganise` always returns a list of exactly the input's length,
and `validate_reorganisation` fails with the count-mismatch error iff
the original and the re-parsed output sequences have different
lengths. -/
theorem reorganise_count_preservation :
    (∀ (entriesFor : Nat → List LLMReorgEntry) (B : Nat) (rs : List BookmarkRecord),
        (reorganise entriesFor B rs).length = rs.length)
    ∧ (∀ original reorganised : List BookmarkRecord,
        (∃ a b, validate_reorganisation original reorganised =
            Except.error (ValidationError.countMismatch a b)) ↔
          original.length ≠ reorganised.length) := by
  constructor
  · intro entriesFor B rs
    exact reorganise_go_length entriesFor (le_max_left 1 B) rs 0
  · intro original reorganised
    constructor
    · rintro ⟨a, b, hab⟩
      intro heq
      have h1 : assert_counts original reorganised = Except.ok () := by
        simp [assert_counts, heq]
      simp only [validate_reorganisation, h1] at hab
      cases hurl : assert_url_multiset original reorganised with
      | error e =>
        rw [hurl] at hab
        have : e = ValidationError.countMismatch a b := by
          simpa using hab
        rw [this] at hurl
        exact assert_url_multiset_not_count original reorganised a b hurl
      | ok u =>
        rw [hurl] at hab
        exact assert_locations_not_count reorganised a b hab
    · intro hne
      refine ⟨original.length, reorganised.length, ?_⟩
      have h1 : assert_counts original reorganised =
          Except.error (ValidationError.countMismatch original.length reorganised.length) := by
        simp only [assert_counts]
        rw [if_pos hne]
      simp only [validate_reorganisation, h1]

/-! ## Lemmas: the merge loop -/

theorem merge_chunk_getElem? (parsed : List LLMReorgEntry) (start : Nat)
    (chunk : List BookmarkRecord) (i : Nat) :
    (merge_chunk parsed start chunk)[i]? =
      chunk[i]?.map (fun r => apply_at parsed (Int.ofNat (start + i)) r) := by
  simp only [merge_chunk]
  rw [List.getElem?_map, List.getElem?_enumFrom]
  cases chunk[i]? <;> rfl

theorem index_lookup_eq_none (parsed : List LLMReorgEntry) (idx : Int)
    (h : ∀ e ∈ parsed, e.index ≠ idx) :
    index_lookup parsed idx = none := by
  simp only [index_lookup]
  rw [List.find?_eq_none]
  intro e he
  simp only [decide_eq_true_eq]
  exact h e (List.mem_reverse.mp he)

/-- C5 (amended): a record whose index no validated entry carries is left
entirely unchanged by the batch merge; a record with a validated entry
gets `title_after` from the entry with fallback to `title_before`,
`location_after` from the entry with fallback to `location_before`, and
its tags replaced by the entry's tags with each tag stripped and empty
tags dropped (never merged with the record's previous tags). -/
theorem merge_rules (parsed : List LLMReorgEntry) (start : Nat)
    (chunk : List BookmarkRecord) (i : Nat) (r : BookmarkRecord)
    (hr : chunk[i]? = some r) :
    ((∀ e ∈ parsed, e.index ≠ Int.ofNat (start + i)) →
        (merge_chunk parsed start chunk)[i]? = some r)
    ∧ (∀ e, index_lookup parsed (Int.ofNat (start + i)) = some e →
        (merge_chunk parsed start chunk)[i]? = some
          { r with
            title_after := if e.title_after ≠ "" then e.title_after else r.title_before
            location_after :=
              if e.location_after ≠ "" then e.location_after else r.location_before
            metadata := { r.metadata with
                          tags := (e.tags.map pyStrip).filter (fun t => t ≠ "") } }) := by
  constructor
  · intro hnone
    have hl := index_lookup_eq_none parsed (Int.ofNat (start + i)) hnone
    rw [merge_chunk_getElem?, hr]
    simp only [Option.map_some', apply_at, hl]
  · intro e he
    rw [merge_chunk_getElem?, hr]
    simp only [Option.map_some', apply_at, he, merge_entry]

/-- The entry and record of C5's tag counterexample: the entry's tag list
is `[""]` (a whitespace-only tag stripped by the pydantic validator). -/
def tagEntry : LLMReorgEntry :=
  { index := 0, title_after := "T", location_after := "Loc", tags := [""] }

def tagRecord : BookmarkRecord :=
  { title_before := "B", url := "u", location_before := "LB",
    metadata := { tags := ["old"] } }

/-- C5 counterexample: the merged record's tags are `[]`, not the entry's
tag list `[""]` verbatim — the merge loop strips each tag and drops the
empty ones. -/
theorem merge_tags_not_verbatim_counterexample :
    merge_chunk [tagEntry] 0 [tagRecord] =
      [{ tagRecord with
          title_after := "T"
          location_after := "Loc"
          metadata := { tagRecord.metadata with tags := [] } }]
    ∧ tagEntry.tags = [""] :=
  ⟨rfl, rfl⟩

/-- Witness for `merge_rules` at a concrete batch. -/
theorem merge_rules_witness :
    (merge_chunk
        [{ index := 0, title_after := "T", location_after := "L", tags := ["x"] }] 0
        [{ title_before := "B", url := "u", location_before := "LB",
           metadata := { tags := ["old"] } }])[0]? =
      some { title_before := "B", url := "u", location_before := "LB",
             metadata := { tags := ["x"] }, title_after := "T", location_after := "L" } := by
  exact (merge_rules
      [{ index := 0, title_after := "T", location_after := "L", tags := ["x"] }] 0
      [{ title_before := "B", url := "u", location_before := "LB",
         metadata := { tags := ["old"] } }] 0
      { title_before := "B", url := "u", location_before := "LB",
        metadata := { tags := ["old"] } } rfl).2
    { index := 0, title_after := "T", location_after := "L", tags := ["x"] } rfl

/-! ## Lemmas: stripping is idempotent, and the JSON round trip -/

theorem dropWhile_head_not {α : Type} (p : α → Bool) :
    ∀ (l : List α) (a : α) (t : List α), l.dropWhile p = a :: t → p a = false := by
  intro l
  induction l with
  | nil =>
    intro a t h
    simp [List.dropWhile] at h
  | cons c cs ih =>
    intro a t h
    rw [List.dropWhile_cons] at h
    by_cases hc : p c = true
    · rw [if_pos hc] at h
      exact ih a t h
    · rw [if_neg hc] at h
      cases h
      exact Bool.eq_false_iff.mpr hc

theorem dropWhile_eq_self_of_head {α : Type} (p : α → Bool) (l : List α)
    (h : ∀ a t, l = a :: t → p a = false) : l.dropWhile p = l := by
  cases l with
  | nil => rfl
  | cons c cs => simp [List.dropWhile_cons, h c cs rfl]

theorem dropWhile_is_suffix {α : Type} (p : α → Bool) :
    ∀ l : List α, ∃ t, t ++ l.dropWhile p = l := by
  intro l
  induction l with
  | nil => exact ⟨[], rfl⟩
  | cons c cs ih =>
    by_cases hc : p c = true
    · obtain ⟨t, ht⟩ := ih
      exact ⟨c :: t, by simp [List.dropWhile_cons, hc, ht]⟩
    · exact ⟨[], by simp [List.dropWhile_cons, hc]⟩

theorem getLast?_dropWhile {α : Type} (p : α → Bool) (l : List α)
    (hne : l.dropWhile p ≠ []) :
    (l.dropWhile p).getLast? = l.getLast? := by
  obtain ⟨t, ht⟩ := dropWhile_is_suffix p l
  conv_rhs => rw [← ht]
  exact (List.getLast?_append_of_ne_nil t hne).symm

theorem trimChars_head_not (l : List Char) (a : Char) (t : List Char)
    (h : trimChars l = a :: t) : a.isWhitespace = false := by
  have hh : (trimChars l).head? = some a := by rw [h]; rfl
  rw [trimChars, List.head?_reverse] at hh
  have hne : ((l.dropWhile Char.isWhitespace).reverse.dropWhile Char.isWhitespace) ≠ [] := by
    intro hnil
    rw [hnil] at hh
    exact Option.noConfusion hh
  rw [getLast?_dropWhile Char.isWhitespace _ hne, List.getLast?_reverse] at hh
  cases hA : l.dropWhile Char.isWhitespace with
  | nil => rw [hA] at hh; exact Option.noConfusion hh
  | cons b bs =>
    rw [hA] at hh
    simp only [List.head?_cons, Option.some.injEq] at hh
    rw [← hh]
    exact dropWhile_head_not Char.isWhitespace l b bs hA

theorem trimChars_getLast_not (l : List Char) (a : Char)
    (h : (trimChars l).getLast? = some a) : a.isWhitespace = false := by
  rw [trimChars, List.getLast?_reverse] at h
  cases hB : (l.dropWhile Char.isWhitespace).reverse.dropWhile Char.isWhitespace with
  | nil => rw [hB] at h; exact Option.noConfusion h
  | cons b bs =>
    rw [hB] at h
    simp only [List.head?_cons, Option.some.injEq] at h
    rw [← h]
    exact dropWhile_head_not Char.isWhitespace _ b bs hB

theorem trimChars_idem (l : List Char) : trimChars (trimChars l) = trimChars l := by
  have h1 : (trimChars l).dropWhile Char.isWhitespace = trimChars l :=
    dropWhile_eq_self_of_head Char.isWhitespace (trimChars l)
      (fun a t h => trimChars_head_not l a t h)
  have h2 : (trimChars l).reverse.dropWhile Char.isWhitespace = (trimChars l).reverse := by
    refine dropWhile_eq_self_of_head Char.isWhitespace (trimChars l).reverse ?_
    intro a t h
    have : (trimChars l).reverse.head? = some a := by rw [h]; rfl
    rw [List.head?_reverse] at this
    exact trimChars_getLast_not l a this
  show ((((trimChars l).dropWhile Char.isWhitespace).reverse).dropWhile
      Char.isWhitespace).reverse = trimChars l
  rw [h1, h2, List.reverse_reverse]

theorem pyStrip_idem (s : String) : pyStrip (pyStrip s) = pyStrip s := by
  show String.mk (trimChars (String.mk (trimChars s.data)).data) = String.mk (trimChars s.data)
  rw [show (String.mk (trimChars s.data)).data = trimChars s.data from rfl, trimChars_idem]

theorem map_pyStrip_map_pyStrip (tags : List String) :
    List.map pyStrip (List.map pyStrip tags) = List.map pyStrip tags := by
  rw [List.map_map]
  exact List.map_congr_left (fun a _ => pyStrip_idem a)

theorem roundtrip_record (r : BookmarkRecord) :
    BookmarkRecord.from_model (validateEntryModel (BookmarkRecord.to_model r)) =
      { r with metadata := { r.metadata with tags := r.metadata.tags.map pyStrip } } := by
  obtain ⟨tb, u, lb, ⟨mt, md, tags⟩, ta, la⟩ := r
  simp only [BookmarkRecord.from_model, validateEntryModel, BookmarkRecord.to_model,
    mkMetadataModel, normalise_tags, map_pyStrip_map_pyStrip]

/-- C9 (amended): writing a record list to a JSON snapshot and loading it
back reproduces every record field-for-field in order, except that each
tag is whitespace-stripped (the pydantic tags validator runs on both
write and load); a list whose tags are already stripped round-trips
exactly. -/
theorem json_roundtrip_spec :
    (∀ rs : List BookmarkRecord,
        json_roundtrip rs = rs.map (fun r =>
          { r with metadata := { r.metadata with tags := r.metadata.tags.map pyStrip } }))
    ∧ (∀ rs : List BookmarkRecord,
        (∀ r ∈ rs, r.metadata.tags.map pyStrip = r.metadata.tags) →
        json_roundtrip rs = rs) := by
  have h1 : ∀ rs : List BookmarkRecord,
      json_roundtrip rs = rs.map (fun r =>
        { r with metadata := { r.metadata with tags := r.metadata.tags.map pyStrip } }) := by
    intro rs
    simp only [json_roundtrip, load_json, write_json, List.map_map]
    exact List.map_congr_left (fun r _ => roundtrip_record r)
  refine ⟨h1, ?_⟩
  intro rs hclean
  rw [h1]
  have : ∀ r ∈ rs,
      ({ r with metadata := { r.metadata with tags := r.metadata.tags.map pyStrip } }
        : BookmarkRecord) = r := by
    intro r hr
    rw [hclean r hr]
  rw [List.map_congr_left this]
  simp

/-- The record of C9's counterexample: a tag with surrounding
whitespace. -/
def paddedTagRecord : BookmarkRecord :=
  { title_before := "T", url := "u", location_before := "L",
    metadata := { tags := [" a "] } }

/-- C9 counterexample: the snapshot round trip strips the tag `" a "` to
`"a"`, so the loaded record list is not equal to the written one. -/
theorem json_roundtrip_counterexample :
    json_roundtrip [paddedTagRecord] =
      [{ paddedTagRecord with
          metadata := { paddedTagRecord.metadata with tags := ["a"] } }]
    ∧ json_roundtrip [paddedTagRecord] ≠ [paddedTagRecord] := by
  exact ⟨rfl, by decide⟩

/-- Witness for `json_roundtrip_spec` at a concrete already-stripped
list. -/
theorem json_roundtrip_spec_witness :
    json_roundtrip
        [{ title_before := "T", url := "u", location_before := "L",
           metadata := { tags := ["a", "b"] } }] =
      [{ title_before := "T", url := "u", location_before := "L",
         metadata := { tags := ["a", "b"] } }] :=
  json_roundtrip_spec.2
    [{ title_before := "T", url := "u", location_before := "L",
       metadata := { tags := ["a", "b"] } }] (by decide)

/-! ## Lemmas: frame conditions of `reorganise` -/

theorem apply_at_preserves (parsed : List LLMReorgEntry) (idx : Int) (r : BookmarkRecord) :
    (apply_at parsed idx r).title_before = r.title_before
    ∧ (apply_at parsed idx r).url = r.url
    ∧ (apply_at parsed idx r).location_before = r.location_before
    ∧ (apply_at parsed idx r).metadata.title = r.metadata.title
    ∧ (apply_at parsed idx r).metadata.description = r.metadata.description := by
  cases h : index_lookup parsed idx <;> simp [apply_at, h, merge_entry]

theorem index_lookup_filter (parsed : List LLMReorgEntry) (p : LLMReorgEntry → Bool)
    (idx : Int) (hp : ∀ e, e.index = idx → p e = true) :
    index_lookup (parsed.filter p) idx = index_lookup parsed idx := by
  simp only [index_lookup]
  rw [← List.filter_reverse]
  generalize parsed.reverse = l
  induction l with
  | nil => rfl
  | cons e es ih =>
    rw [List.filter_cons]
    by_cases hpe : p e = true
    · rw [if_pos hpe, List.find?_cons, List.find?_cons]
      cases hd : decide (e.index = idx) <;> simp [hd, ih]
    · rw [if_neg hpe, ih, List.find?_cons]
      have he : decide (e.index = idx) = false := by
        rcases Decidable.em (e.index = idx) with h | h
        · exact absurd (hp e h) hpe
        · simpa using h
      rw [he]

theorem merge_chunk_filter (parsed : List LLMReorgEntry) (start : Nat)
    (chunk : List BookmarkRecord) :
    merge_chunk
        (parsed.filter
          (fun e => (start : Int) ≤ e.index ∧ e.index < (start : Int) + chunk.length))
        start chunk
      = merge_chunk parsed start chunk := by
  simp only [merge_chunk]
  refine List.map_congr_left ?_
  rintro ⟨i, r⟩ hmem
  obtain ⟨h1, h2, _⟩ := List.mem_enumFrom hmem
  simp only [apply_at]
  rw [index_lookup_filter]
  intro e he
  simp only [decide_eq_true_eq, he]
  constructor <;> · simp only [Int.ofNat_eq_coe]; omega

theorem reorganise_go_getElem? (f : Nat → List LLMReorgEntry) {b : Nat} (hb : 1 ≤ b) :
    ∀ (n : Nat) (rem : List BookmarkRecord), rem.length ≤ n → ∀ (start i : Nat),
      (reorganise_go f b start rem)[i]? =
        rem[i]?.map (fun r => apply_at (f (start + b * (i / b))) (Int.ofNat (start + i)) r) := by
  intro n
  induction n with
  | zero =>
    intro rem h start i
    have : rem = [] := List.length_eq_zero.mp (Nat.le_zero.mp h)
    subst this
    simp [reorganise_go]
  | succ n ih =>
    intro rem h start i
    cases rem with
    | nil => simp [reorganise_go]
    | cons r rest =>
      simp only [reorganise_go]
      rw [List.getElem?_append]
      rw [merge_chunk_length]
      by_cases hi : i < ((r :: rest).take b).length
      · rw [if_pos hi]
        rw [merge_chunk_getElem?]
        have hib : i < b := by
          have := hi
          rw [List.length_take] at this
          omega
        rw [List.getElem?_take, if_pos hib]
        rw [Nat.div_eq_of_lt hib, Nat.mul_zero, Nat.add_zero]
      · rw [if_neg hi]
        have hlen : ((r :: rest).take b).length = min b (rest.length + 1) := by
          simp [List.length_take]
        by_cases hble : b ≤ rest.length + 1
        · -- full chunk of size b; the tail recursion covers index i - b
          have hchunk : ((r :: rest).take b).length = b := by omega
          rw [hchunk] at hi ⊢
          have hbi : b ≤ i := by omega
          have hrec := ih (rest.drop (b - 1))
            (by simp only [List.length_drop]; simp only [List.length_cons] at h; omega)
            (start + b) (i - b)
          rw [hrec]
          rw [List.getElem?_drop]
          have hidx : b - 1 + (i - b) = i - 1 := by omega
          rw [hidx]
          have hcons : rest[i - 1]? = (r :: rest)[i]? := by
            obtain ⟨j, rfl⟩ : ∃ j, i = j + 1 := ⟨i - 1, by omega⟩
            rw [List.getElem?_cons_succ]
            simp
          rw [hcons]
          have hdiv : i / b = (i - b) / b + 1 := Nat.div_eq_sub_div (by omega) hbi
          have harg : start + b + b * ((i - b) / b) = start + b * (i / b) := by
            rw [hdiv, Nat.mul_succ]
            omega
          have hadd : start + b + (i - b) = start + i := by omega
          rw [harg, hadd]
        · -- the whole remainder fits in this chunk; both sides are none
          have hchunk : ((r :: rest).take b).length = rest.length + 1 := by omega
          rw [hchunk] at hi
          have hdrop : rest.drop (b - 1) = [] :=
            List.drop_eq_nil_of_le (by omega)
          rw [hdrop]
          have hnone : (r :: rest)[i]? = none :=
            List.getElem?_eq_none (by simp only [List.length_cons]; omega)
          rw [hnone]
          simp [reorganise_go]

/-- C10: `reorganise` neither adds, removes nor reorders records (the
output's element at every position is the merge image of the input's
element at that position), never modifies `title_before`, `url`,
`location_before`, `metadata.title` or `metadata.description`, and a
validated entry whose index lies outside a batch's
`[start, start + len(chunk))` range has no effect on the batch. -/
theorem reorganise_frame :
    ∀ (entriesFor : Nat → List LLMReorgEntry) (B : Nat) (rs : List BookmarkRecord),
      (reorganise entriesFor B rs).length = rs.length
      ∧ (∀ (i : Nat) (r : BookmarkRecord), rs[i]? = some r →
          ∃ r', (reorganise entriesFor B rs)[i]? = some r'
            ∧ r'.title_before = r.title_before ∧ r'.url = r.url
            ∧ r'.location_before = r.location_before
            ∧ r'.metadata.title = r.metadata.title
            ∧ r'.metadata.description = r.metadata.description)
      ∧ (∀ (parsed : List LLMReorgEntry) (start : Nat) (chunk : List BookmarkRecord),
          merge_chunk
              (parsed.filter
                (fun e => (start : Int) ≤ e.index ∧ e.index < (start : Int) + chunk.length))
              start chunk
            = merge_chunk parsed start chunk) := by
  intro entriesFor B rs
  refine ⟨reorganise_go_length entriesFor (le_max_left 1 B) rs 0, ?_, merge_chunk_filter⟩
  intro i r hr
  have hchar := reorganise_go_getElem? entriesFor (le_max_left 1 B) rs.length rs le_rfl 0 i
  rw [hr] at hchar
  simp only [Option.map_some'] at hchar
  refine ⟨apply_at (entriesFor (0 + max 1 B * (i / max 1 B))) (Int.ofNat (0 + i)) r,
    ?_, ?_, ?_, ?_, ?_, ?_⟩
  · exact hchar
  · exact (apply_at_preserves _ _ r).1
  · exact (apply_at_preserves _ _ r).2.1
  · exact (apply_at_preserves _ _ r).2.2.1
  · exact (apply_at_preserves _ _ r).2.2.2.1
  · exact (apply_at_preserves _ _ r).2.2.2.2

/-- Witness for `reorganise_frame` at a concrete input. -/
theorem reorganise_frame_witness :
    ∃ r', (reorganise (fun _ => [])  2
        [{ title_before := "B", url := "u", location_before := "L" }])[0]? = some r'
      ∧ r'.title_before = "B" ∧ r'.url = "u" ∧ r'.location_before = "L"
      ∧ r'.metadata.title = "" ∧ r'.metadata.description = "" :=
  (reorganise_frame (fun _ => []) 2
      [{ title_before := "B", url := "u", location_before := "L" }]).2.1 0
    { title_before := "B", url := "u", location_before := "L" } rfl

/-! ## Lemmas: the retry/fallback controller -/

/-- A client whose every response parses to a list whose items all lack
the `index` key, so every attempt validates to zero entries. -/
def zeroValidClient : Nat → String → Bool → Except String (List RawItem) :=
  fun _ _ _ => Except.ok [{ location_after := some "X" }]

/-- A client whose every call raises. -/
def alwaysRaiseClient : Nat → String → Bool → Except String (List RawItem) :=
  fun _ _ _ => Except.error "boom"

/-- Model of `BookmarkOrganiser.__init__` state with the default model and no
distinct fallback. -/
def initOrganiserState : OrganiserState :=
  { model := "gpt-4.1-mini", fallback_model := "gpt-4.1-mini",
    supports_temperature := true }

/-- C1: terminal-failure behaviour of the retry loop.  When every
attempt validates zero entries, the loop re-raises the recorded
`ValueError` — a `ValueError`, not an `LLMInvocationError`, escapes.
When every attempt raises, the `except` branch never records the
exception into `last_error`, so the loop raises a bare
`LLMInvocationError` carrying no error.  Both runs contradict the
claimed "fail with `LLMInvocationError`, carrying the last observed
error if any". -/
theorem invoke_terminal_failure_divergence :
    (invoke_with_retry zeroValidClient initOrganiserState 3 2).1 =
        RetryOutcome.raisedValueError "No valid items after validation"
    ∧ (invoke_with_retry alwaysRaiseClient initOrganiserState 3 2).1 =
        RetryOutcome.raisedLLMInvocationError :=
  ⟨rfl, rfl⟩

theorem invoke_loop_trace (client : Nat → String → Bool → Except String (List RawItem))
    (backoff : ℚ) :
    ∀ (attempts : List Nat) (st : OrganiserState) (lastErr : Option String)
      (t : List RetryEvent),
      invoke_loop client backoff attempts st lastErr t =
        ((invoke_loop client backoff attempts st lastErr []).1,
         (invoke_loop client backoff attempts st lastErr []).2.1,
         t ++ (invoke_loop client backoff attempts st lastErr []).2.2) := by
  intro attempts
  induction attempts with
  | nil =>
    intro st le t
    simp [invoke_loop]
  | cons a rest ih =>
    intro st le t
    simp only [invoke_loop]
    cases hsa : single_attempt (client a) st with
    | ok validated =>
      by_cases hv : validated.isEmpty = true
      · simp only [hv, if_true]
        rw [ih st (some "No valid items after validation") (t ++ [RetryEvent.noValidItems a]),
          ih st (some "No valid items after validation") ([] ++ [RetryEvent.noValidItems a])]
        simp
      · simp only [hv, if_false]
        simp
    | error msg =>
      dsimp only
      rw [ih (process_exception st msg a backoff).1 le
          (t ++ [(process_exception st msg a backoff).2.2]),
        ih (process_exception st msg a backoff).1 le
          ([] ++ [(process_exception st msg a backoff).2.2])]
      simp

/-- C6: when attempt 1 fails with a temperature-unsupported error while
custom temperature is still enabled, the controller disables custom
temperature for all subsequent attempts, records the fixed 0.1s pause
instead of a standard backoff step, and the loop continues with the two
remaining attempts `[2, 3]` of the `max_attempts = 3` budget in the
corrected state. -/
theorem temp_correction_preserves_budget
    (client : Nat → String → Bool → Except String (List RawItem))
    (st : OrganiserState) (backoff : ℚ) (e : String)
    (hst : st.supports_temperature = true)
    (hc : client 1 st.model true = Except.error e)
    (ht : strContains (pyLower e) "temperature" = true)
    (hu : strContains (pyLower e) "unsupported" = true) :
    invoke_with_retry client st 3 backoff =
      ((invoke_loop client backoff [2, 3]
          { st with supports_temperature := false } none []).1,
       (invoke_loop client backoff [2, 3]
          { st with supports_temperature := false } none []).2.1,
       RetryEvent.tempCorrection 1 (1 / 10) ::
         (invoke_loop client backoff [2, 3]
            { st with supports_temperature := false } none []).2.2) := by
  have hsa : single_attempt (client 1) st = Except.error e := by
    simp [single_attempt, hst, hc, Except.map]
  have hpe : process_exception st e 1 backoff =
      ({ st with supports_temperature := false }, true,
        RetryEvent.tempCorrection 1 (1 / 10)) := by
    simp [process_exception, hst, ht, hu]
  have hrange : List.range' 1 3 = [1, 2, 3] := rfl
  have hstep : invoke_loop client backoff [1, 2, 3] st none [] =
      invoke_loop client backoff [2, 3] { st with supports_temperature := false } none
        ([] ++ [RetryEvent.tempCorrection 1 (1 / 10)]) := by
    conv_lhs => rw [invoke_loop]
    rw [hsa]
    dsimp only
    rw [hpe]
  rw [invoke_with_retry, hrange, hstep,
    invoke_loop_trace client backoff [2, 3] { st with supports_temperature := false }
      none ([] ++ [RetryEvent.tempCorrection 1 (1 / 10)])]
  simp

/-- The client double of §8's retry scenario: a temperature-unsupported
failure on attempt 1, success without temperature afterwards. -/
def tempThenOkClient : Nat → String → Bool → Except String (List RawItem) :=
  fun n _ temp =>
    if n = 1 then Except.error "Unsupported value: temperature 0.2"
    else if temp then Except.error "temperature still enabled"
    else Except.ok
      [{ index := some 0, title_after := some "T", location_after := some "A",
         tags := some ["x"] }]

/-- Witness for `temp_correction_preserves_budget`: the concrete double
recovers on attempt 2 and the run succeeds with the temperature flag
disabled. -/
theorem temp_correction_witness :
    invoke_with_retry tempThenOkClient
        { model := "m", fallback_model := "m", supports_temperature := true } 3 2 =
      (RetryOutcome.success
          [{ index := 0, title_after := "T", location_after := "A", tags := ["x"] }],
       { model := "m", fallback_model := "m", supports_temperature := false },
       [RetryEvent.tempCorrection 1 (1 / 10), RetryEvent.succeeded 2]) := by
  have h := temp_correction_preserves_budget tempThenOkClient
      { model := "m", fallback_model := "m", supports_temperature := true } 2
      "Unsupported value: temperature 0.2" rfl rfl (by decide) (by decide)
  rw [h]
  rfl
